import Mathlib

/-!
Shallow embedding of the annotation core of the `vscode-demangler` extension.

The embedded code (file ↦ section of this file):
* the regular-expression candidate matching used by `demangleSymbolsInRanges`
  (JavaScript `RegExp.exec` on a `g`-flagged pattern, repeated from `lastIndex`);
* `DemanglerPathSettings.updateAvailability` (demangler_path_settings.ts);
* `DemanglerCore` (demangler_core.ts): `lookupSymbolInCacheOrDemangle`,
  `demangleSymbolsInRanges`, `onDidChangeConfiguration`;
* `DemanglingDecorator.activate` (demangling_decorator.ts): the 100ms
  debounce timer for visible-range events and the immediate handling of edits;
* `CppDemangler.demangle` (demanglers/cpp.ts) and `SwiftDemangler.demangle`
  (demanglers/swift.ts) over a model of `child_process.spawnSync`.

Effects are made explicit: the mutable `demangleCache` is threaded as state,
external demangler invocations are recorded in a log, and the single
`onDidInvalidate` event fired by `onDidChangeConfiguration` is returned as a
list of events (the state returned is the state subscribers observe, which
encodes that the cache clear happens before the event fires).
-/

/-! ## Regular-expression patterns

The demanglers' `mangledSymbolPattern` fields are JavaScript regex literals.
We embed the fragment of regexes those literals use: literals, single-character
classes, concatenation, alternation, greedy `?`, and greedy `+` over a
character class.  `lens r s` lists the lengths of the prefixes of `s` matched
by `r`, in backtracking priority order; a JavaScript match at a position takes
the head of that list. -/

inductive RE where
  | lit : List Char → RE
  | cls : (Char → Bool) → RE
  | seq : RE → RE → RE
  | alt : RE → RE → RE
  | opt : RE → RE
  | plusCls : (Char → Bool) → RE

/-- Does `cs` occur as a leading segment of `s`?  (Literal matching.) -/
def litMatch : List Char → List Char → Bool
  | [], _ => true
  | _ :: _, [] => false
  | c :: cs, d :: ds => c == d && litMatch cs ds

/-- Length of the maximal leading run of characters satisfying `p`. -/
def runLen (p : Char → Bool) : List Char → Nat
  | [] => 0
  | c :: cs => if p c then runLen p cs + 1 else 0

/-- The lengths of prefixes of `s` matched by the pattern, in the priority
order a backtracking JavaScript regex engine tries them (greedy first). -/
def RE.lens : RE → List Char → List Nat
  | .lit cs, s => if litMatch cs s then [cs.length] else []
  | .cls p, s =>
    match s with
    | [] => []
    | c :: _ => if p c then [1] else []
  | .seq a b, s =>
    (a.lens s).flatMap fun l1 => ((b.lens (s.drop l1)).map fun l2 => l1 + l2)
  | .alt a b, s => a.lens s ++ b.lens s
  | .opt a, s => a.lens s ++ [0]
  | .plusCls p, s =>
    let n := runLen p s
    (List.range n).map fun k => n - k

/-- `true` when every string the pattern matches is non-empty (the pattern has
no zero-width match).  Conservative structural check. -/
def RE.nonNullable : RE → Bool
  | .lit cs => !cs.isEmpty
  | .cls _ => true
  | .seq a b => a.nonNullable || b.nonNullable
  | .alt a b => a.nonNullable && b.nonNullable
  | .opt _ => false
  | .plusCls _ => true

/-- One `exec` search: starting from index `j` with remaining suffix `s`,
find the least position at which the pattern matches, returning the match
position and length.  This is JavaScript's leftmost-match rule. -/
def execSearchAux (re : RE) : List Char → Nat → Option (Nat × Nat)
  | s, j =>
    match (re.lens s).head? with
    | some l => some (j, l)
    | none =>
      match s with
      | [] => none
      | _ :: rest => execSearchAux re rest (j + 1)

/-- `exec` on a `g`-flagged regex with `lastIndex = i`. -/
def execSearch (re : RE) (chars : List Char) (i : Nat) : Option (Nat × Nat) :=
  execSearchAux re (chars.drop i) i

/-- The `while ((match = pattern.exec(text)) !== null)` loop: repeated
non-overlapping matching, each step resuming from `lastIndex = j + l`.
`fuel` bounds the iteration count; `none` means the fuel ran out (which is the
loop failing to terminate within that many steps). -/
def execLoop (re : RE) (chars : List Char) : Nat → Nat → Option (List (Nat × Nat))
  | 0, _ => none
  | fuel + 1, i =>
    match execSearch re chars i with
    | none => some []
    | some (j, l) => (execLoop re chars fuel (j + l)).map fun rest => (j, l) :: rest

/-- All matches of the pattern over a line of text, in left-to-right order.
`chars.length + 1` steps of fuel always suffice for a non-nullable pattern
(proved below); the loop of the source runs forever otherwise. -/
def execAllMatches (re : RE) (chars : List Char) : List (Nat × Nat) :=
  (execLoop re chars (chars.length + 1) 0).getD []

/-- Decidable statement that one `exec` step from `lastIndex = i` advances:
any match found starts at or after `i`, ends strictly after `i`, and ends
within the text. -/
def execAdvances (re : RE) (chars : List Char) (i : Nat) : Bool :=
  match execSearch re chars i with
  | none => true
  | some (j, l) => decide (i ≤ j ∧ i < j + l ∧ j + l ≤ chars.length)

/-! ### The two registered patterns

`CppDemangler.mangledSymbolPattern` is the literal `/_{1,2}ZN?\d+\w+/g`
(demanglers/cpp.ts) and `SwiftDemangler.mangledSymbolPattern` is the literal
`/(%T|(_?\$[sS]|_T|s:|@__swiftmacro_))[_A-Za-z0-9$]+/g` (demanglers/swift.ts).
`\d` is `[0-9]` and `\w` is `[A-Za-z0-9_]`. -/

def digitChar (c : Char) : Bool := c.isDigit

def wordChar (c : Char) : Bool := c.isAlpha || c.isDigit || c == '_'

def swiftSymbolChar (c : Char) : Bool := c == '_' || c.isAlpha || c.isDigit || c == '$'

/-- `/_{1,2}ZN?\d+\w+/`: `_{1,2}` is one underscore then a greedy optional
second one (priority: two first). -/
def cppMangledSymbolPattern : RE :=
  .seq (.seq (.seq (.seq
    (.seq (.cls fun c => c == '_') (.opt (.cls fun c => c == '_')))
    (.lit ['Z']))
    (.opt (.lit ['N'])))
    (.plusCls digitChar))
    (.plusCls wordChar)

/-- `/(%T|(_?\$[sS]|_T|s:|@__swiftmacro_))[_A-Za-z0-9$]+/`: alternatives in
source order. -/
def swiftMangledSymbolPattern : RE :=
  .seq
    (.alt (.lit ['%', 'T'])
      (.alt (.seq (.opt (.lit ['_'])) (.seq (.lit ['$']) (.cls fun c => c == 's' || c == 'S')))
        (.alt (.lit ['_', 'T'])
          (.alt (.lit ['s', ':']) (.lit "@__swiftmacro_".toList)))))
    (.plusCls swiftSymbolChar)

/-! ## VS Code data model (the parts the core consumes)

`vscode.Position`, `vscode.Range`, and the read-only view of a
`vscode.TextDocument` as its list of lines, with `offsetAt` counting one
character per line separator as VS Code does. -/

structure Position where
  line : Nat
  character : Nat
deriving DecidableEq, Repr

/-- `position.translate(0, n)`. -/
def Position.translate (p : Position) (lineDelta charDelta : Nat) : Position :=
  { line := p.line + lineDelta, character := p.character + charDelta }

/-- `vscode.Range`.  The source field `end` is a Lean keyword, so it is named
`endPos` here. -/
structure Range where
  start : Position
  endPos : Position
deriving DecidableEq, Repr

/-- A read-only snapshot of a `vscode.TextDocument`, as its lines. -/
structure TextDocument where
  lines : List String
deriving Repr

def TextDocument.lineCount (d : TextDocument) : Nat := d.lines.length

/-- `document.lineAt(line).text`. -/
def TextDocument.lineAt (d : TextDocument) (line : Nat) : String :=
  (d.lines.get? line).getD ""

/-- `document.offsetAt(position)`: characters of all full lines before the
position (plus one separator each) plus the column. -/
def TextDocument.offsetAt (d : TextDocument) (p : Position) : Nat :=
  ((d.lines.take p.line).foldl (fun a l => a + l.length + 1) 0) + p.character

/-! ## Demangler interface and path settings -/

/-- `DemangleResult` (demangler_interface.ts).  `detailedText` is a string or
a `vscode.MarkdownString`; both are modelled as the rendered string. -/
structure DemangleResult where
  demangled : String
  detailedText : Option String := none
deriving DecidableEq, Repr

/-- `vscode.ConfigurationChangeEvent`: only `affectsConfiguration` is
consumed. -/
structure ConfigurationChangeEvent where
  affectsConfiguration : String → Bool

/-- The external world a configuration change is evaluated against: the
workspace configuration's `toolPath` value per settings section
(`undefined` = `none`), and `canSpawnSync` (spawn.ts) telling whether a path
is an executable tool. -/
structure ConfigEnv where
  toolPath : String → Option String
  canSpawnSync : String → Bool

/-- `DemanglerPathSettings` (demangler_path_settings.ts) instance state.
The source field `section` is a Lean keyword, so it is named `sectionName`.
`currentToolPath` is declared `string` in the source but holds the raw
`get("toolPath")` value, which can be `undefined` at runtime, hence
`Option String` (initialised to `some ""`). -/
structure DemanglerPathSettings where
  sectionName : String
  currentToolPath : Option String
  canSpawnTool : Bool
deriving Repr

/-- `isToolValid()`. -/
def DemanglerPathSettings.isToolValid (ps : DemanglerPathSettings) : Bool :=
  ps.canSpawnTool

/-- `updateAvailability(event?)`: short-circuit when the event does not touch
this section; then compare the configured `toolPath` with the stored one and
only re-probe (and return `true`) when it changed.  The warning popup is UI
and is not modelled. -/
def DemanglerPathSettings.updateAvailability (ps : DemanglerPathSettings)
    (env : ConfigEnv) (event : Option ConfigurationChangeEvent) :
    DemanglerPathSettings × Bool :=
  -- `if (event && !event.affectsConfiguration(this.section)) return false;`
  if (match event with
      | some e => !e.affectsConfiguration ps.sectionName
      | none => false) then
    (ps, false)
  else
    let path := env.toolPath ps.sectionName
    if ps.currentToolPath = path then
      (ps, false)
    else
      ({ ps with
          currentToolPath := path
          canSpawnTool :=
            match path with
            | none => false
            | some p => env.canSpawnSync p },
        true)

/-- An `IDemangler` (demangler_interface.ts) as implemented by
`CppDemangler`/`SwiftDemangler`: a pattern, the path settings, and the
external tool's behaviour abstracted as the function `demangleFn` computed by
`demangle()`. -/
structure IDemangler where
  mangledSymbolPattern : RE
  pathSettings : DemanglerPathSettings
  demangleFn : String → Option DemangleResult

/-- `isAvailable()` of both demanglers: `pathSettings.isToolValid()`. -/
def IDemangler.isAvailable (d : IDemangler) : Bool :=
  d.pathSettings.isToolValid

/-- `demangle()`. -/
def IDemangler.demangle (d : IDemangler) (mangledSymbol : String) :
    Option DemangleResult :=
  d.demangleFn mangledSymbol

/-- `onDidChangeConfiguration(event)` of both demanglers: forward to
`pathSettings.updateAvailability(event)` and report its result. -/
def IDemangler.onDidChangeConfiguration (d : IDemangler) (env : ConfigEnv)
    (event : ConfigurationChangeEvent) : IDemangler × Bool :=
  let r := d.pathSettings.updateAvailability env (some event)
  ({ d with pathSettings := r.1 }, r.2)

/-! ## The demangler core (demangler_core.ts)

`this.demangleCache : Map<string, DemangleResult | null>` is modelled as an
insertion-ordered association list with JavaScript `Map` semantics: `get`
returns `undefined` (`none`) for an absent key, the stored value otherwise
(which is itself `DemangleResult | null`, i.e. `Option DemangleResult`);
`set` replaces in place or appends.

Every call of `demangler.demangle(symbol)` is recorded in a log of
`(demangler, symbol)` pairs so that claims counting external invocations can
be stated. -/

abbrev DemangleCache := List (String × Option DemangleResult)

/-- `map.get(key)`: `none` = `undefined` (never attempted). -/
def cacheGet : DemangleCache → String → Option (Option DemangleResult)
  | [], _ => none
  | (k', v') :: rest, k => if k' = k then some v' else cacheGet rest k

/-- `map.set(key, value)`. -/
def cacheSet : DemangleCache → String → Option DemangleResult → DemangleCache
  | [], k, v => [(k, v)]
  | (k', v') :: rest, k, v =>
    if k' = k then (k', v) :: rest else (k', v') :: cacheSet rest k v

/-- `DemanglerCore` instance state: the registered demanglers (in registration
order) and the demangle cache. -/
structure DemanglerCore where
  demanglers : List IDemangler
  demangleCache : DemangleCache

/-- `DemangledDocumentSymbol` (demangler_core.ts). -/
structure DemangledDocumentSymbol where
  range : Range
  result : DemangleResult
deriving DecidableEq, Repr

/-- The element type of the local `mangledSymbols` array of
`demangleSymbolsInRanges`. -/
structure MangledSymbolOccurrence where
  symbol : String
  demangler : IDemangler
  position : Position

/-- `lookupSymbolInCacheOrDemangle(symbol, demangler)`.

The source tests the looked-up value with `if (cachedResult)`: a JavaScript
truthiness test, which is `true` exactly for a stored `DemangleResult` object
(`some (some r)` here) and `false` both for `undefined` (absent) and for a
stored `null` (a cached negative).  On the falsy branch the source invokes
`demangler.demangle(symbol)` and `set`s the cache.  Returns the result, the
updated core, and the list of external demangle invocations performed. -/
def DemanglerCore.lookupSymbolInCacheOrDemangle (core : DemanglerCore)
    (symbol : String) (demangler : IDemangler) :
    Option DemangleResult × DemanglerCore × List (IDemangler × String) :=
  match cacheGet core.demangleCache symbol with
  | some (some cachedResult) => (some cachedResult, core, [])
  | _ =>
    let demangledResult := demangler.demangle symbol
    (demangledResult,
      { core with demangleCache := cacheSet core.demangleCache symbol demangledResult },
      [(demangler, symbol)])

/-- The matches of one demangler on one line of text, as occurrences.  The
source's vacuous `if (offsetInLine === null) continue;` (a number is never
`null`) is omitted. -/
def scanLineWithDemangler (d : IDemangler) (line : Nat) (text : String) :
    List MangledSymbolOccurrence :=
  (execAllMatches d.mangledSymbolPattern text.toList).map fun m =>
    { symbol := String.mk ((text.toList.drop m.1).take m.2)
      demangler := d
      position := { line := line, character := m.1 } }

/-- The line numbers scanned for one requested range: nothing when the range's
byte span exceeds `1024 * 1024`, otherwise the window
`[max(0, start.line - 1), min(end.line + 2, lineCount))`. -/
def linesToScan (document : TextDocument) (range : Range) : List Nat :=
  let startOffset := document.offsetAt range.start
  let endOffset := document.offsetAt range.endPos
  if endOffset - startOffset > 1024 * 1024 then
    []
  else
    let startLine := range.start.line - 1
    let endLine := min (range.endPos.line + 2) document.lineCount
    List.range' startLine (endLine - startLine)

/-- The first phase of `demangleSymbolsInRanges`: collect all candidate
occurrences, iterating ranges, then lines, then demanglers in registration
order (skipping unavailable ones), then matches left to right. -/
def collectMangledSymbols (core : DemanglerCore) (document : TextDocument)
    (ranges : List Range) : List MangledSymbolOccurrence :=
  ranges.flatMap fun range =>
    (linesToScan document range).flatMap fun line =>
      core.demanglers.flatMap fun demangler =>
        if demangler.isAvailable then
          scanLineWithDemangler demangler line (document.lineAt line)
        else
          []

/-- The second phase of `demangleSymbolsInRanges`: resolve each occurrence
through `lookupSymbolInCacheOrDemangle`, dropping `null` outcomes, and build
the `DemangledDocumentSymbol` for the rest from the occurrence's recorded
position. -/
def DemanglerCore.demangleAll (core : DemanglerCore) :
    List MangledSymbolOccurrence →
    List DemangledDocumentSymbol × DemanglerCore × List (IDemangler × String)
  | [] => ([], core, [])
  | occ :: rest =>
    let step := core.lookupSymbolInCacheOrDemangle occ.symbol occ.demangler
    let tail := step.2.1.demangleAll rest
    match step.1 with
    | none => (tail.1, tail.2.1, step.2.2 ++ tail.2.2)
    | some r =>
      ({ range := { start := occ.position
                    endPos := occ.position.translate 0 occ.symbol.length }
         result := r } :: tail.1,
        tail.2.1, step.2.2 ++ tail.2.2)

/-- `demangleSymbolsInRanges(document, ranges)`: scan, then resolve.  Returns
the `DemangledDocumentSymbol` list, the updated core, and the log of external
demangle invocations. -/
def DemanglerCore.demangleSymbolsInRanges (core : DemanglerCore)
    (document : TextDocument) (ranges : List Range) :
    List DemangledDocumentSymbol × DemanglerCore × List (IDemangler × String) :=
  core.demangleAll (collectMangledSymbols core document ranges)

/-- `onDidChangeConfiguration(event)`: ask every demangler to handle the
event, OR the results; if any invalidated, clear the cache and then fire the
`onDidInvalidate` event once.  The fired events are returned as a list (so
"exactly one event" is statable), and the returned core is the state every
subscriber observes — the clear happens before the fire. -/
def DemanglerCore.onDidChangeConfiguration (core : DemanglerCore)
    (env : ConfigEnv) (event : ConfigurationChangeEvent) :
    DemanglerCore × List Unit :=
  let step := core.demanglers.foldl
    (fun (acc : List IDemangler × Bool) demangler =>
      let r := demangler.onDidChangeConfiguration env event
      (acc.1 ++ [r.1], acc.2 || r.2))
    ([], false)
  if step.2 then
    ({ demanglers := step.1, demangleCache := [] }, [()])
  else
    ({ core with demanglers := step.1 }, [])

/-! ## The decorator's event scheduling (demangling_decorator.ts)

`DemanglingDecorator.activate` registers three listeners.  The visible-ranges
listener clears any pending `changeVisibleRangesTimer` and schedules
`decorateSymbolsInRanges` 100ms later with the event's ranges; the
text-document-change listener (for the active editor's document) calls
`decorateSymbolsInRanges` immediately.  We model the single-threaded event
loop: a run consumes externally-arriving events in timestamp order, firing a
due timer before handling a later event, and records every
`decorateSymbolsInRanges` invocation as an `AnnotationPass`. -/

/-- An external event delivered to the decorator's listeners.  Both carry the
ranges the handler will pass to `decorateSymbolsInRanges` (the event's
`visibleRanges`, resp. the active editor's `visibleRanges`). -/
inductive DecoratorEvent where
  | changeVisibleRanges : List Range → DecoratorEvent
  | changeTextDocument : List Range → DecoratorEvent
deriving DecidableEq, Repr

/-- Decorator instance state: `changeVisibleRangesTimer`, holding the time
the pending timeout will fire and the ranges its callback captured. -/
structure DecoratorState where
  changeVisibleRangesTimer : Option (Nat × List Range)
deriving DecidableEq, Repr

/-- One invocation of `decorateSymbolsInRanges` (an annotation pass), with
the time it ran and the ranges it was given. -/
structure AnnotationPass where
  time : Nat
  ranges : List Range
deriving DecidableEq, Repr

/-- Fire the pending timeout if its scheduled time has been reached: the
callback sets the timer field to `null` and decorates with the captured
ranges. -/
def fireDueTimer (st : DecoratorState) (now : Nat) :
    DecoratorState × List AnnotationPass :=
  match st.changeVisibleRangesTimer with
  | some (fireTime, rs) =>
    if fireTime ≤ now then
      ({ changeVisibleRangesTimer := none }, [{ time := fireTime, ranges := rs }])
    else
      (st, [])
  | none => (st, [])

/-- Handle one listener event at time `now`.  A visible-ranges change does
`clearTimeout` on any pending timer and `setTimeout(…, 100)` capturing the
event's ranges; a text-document change decorates immediately. -/
def handleDecoratorEvent (st : DecoratorState) (now : Nat) :
    DecoratorEvent → DecoratorState × List AnnotationPass
  | .changeVisibleRanges rs =>
    ({ changeVisibleRangesTimer := some (now + 100, rs) }, [])
  | .changeTextDocument rs =>
    (st, [{ time := now, ranges := rs }])

/-- Consume a timestamped event sequence: at each event, first fire a due
timer, then run the listener. -/
def runDecoratorEvents (st : DecoratorState) :
    List (Nat × DecoratorEvent) → DecoratorState × List AnnotationPass
  | [] => (st, [])
  | (t, ev) :: rest =>
    let fired := fireDueTimer st t
    let handled := handleDecoratorEvent fired.1 t ev
    let tail := runDecoratorEvents handled.1 rest
    (tail.1, fired.2 ++ handled.2 ++ tail.2)

/-- Run an event sequence from the idle decorator and then let enough quiet
time pass for any pending timer to fire. -/
def decoratorPasses (events : List (Nat × DecoratorEvent)) : List AnnotationPass :=
  let run := runDecoratorEvents { changeVisibleRangesTimer := none } events
  run.2 ++
    (match run.1.changeVisibleRangesTimer with
     | some (fireTime, rs) => [{ time := fireTime, ranges := rs }]
     | none => [])

/-- A burst of visible-range events: timestamps are in arrival order and each
event arrives strictly inside the 100ms window opened by the previous one. -/
def burstWithinDebounce : List (Nat × List Range) → Bool
  | [] => true
  | [_] => true
  | (t1, _) :: (t2, rs2) :: rest =>
    t1 ≤ t2 && t2 < t1 + 100 && burstWithinDebounce ((t2, rs2) :: rest)

/-! ## The concrete demanglers' `demangle` methods over `spawnSync`

`spawnDemanglerSync` (spawn.ts) wraps `child_process.spawnSync`; when the
process cannot be spawned the returned `stdout` is `null`, modelled as
`none`.  The sources immediately call `.stdout.trim()`, which on `null`
raises a `TypeError`; the embedding returns `Except.error` for a raised
JavaScript exception. -/

structure SpawnSyncReturns where
  stdout : Option String
deriving Repr

/-- The external behaviour of `spawnDemanglerSync`, as a function from the
full command line to its result. -/
abbrev SpawnBehaviour := List String → SpawnSyncReturns

/-- `CppDemangler.demangle(mangledSymbol)` (demanglers/cpp.ts): run
`c++filt` on the symbol; if the output echoes the input the symbol could not
be demangled.  `.stdout.trim()` throws when `stdout` is `null`. -/
def CppDemangler.demangle (spawnDemanglerSync : SpawnBehaviour)
    (toolPath mangledSymbol : String) : Except String (Option DemangleResult) :=
  match (spawnDemanglerSync [toolPath, mangledSymbol]).stdout with
  | none => Except.error "TypeError: stdout is null"
  | some stdout =>
    let output := stdout.trim
    if output = mangledSymbol then
      Except.ok none
    else
      Except.ok (some { demangled := output })

/-- `SwiftDemangler.demangle(mangledSymbol)` (demanglers/swift.ts): rewrite
the `@__swiftmacro_` / `%T` / `s:` prefixes to `_$s`, run
`swift-demangle --expand --compact`, take the last output line as the
demangled name (`<<NULL>>` = failure) and the middle lines as the hover
detail.  `.stdout.trim()` throws when `stdout` is `null`. -/
def SwiftDemangler.demangle (spawnDemanglerSync : SpawnBehaviour)
    (toolPath mangledSymbol₀ : String) : Except String (Option DemangleResult) :=
  let mangledSymbol :=
    if mangledSymbol₀.startsWith "@__swiftmacro_" then
      "_$s" ++ mangledSymbol₀.drop 14
    else if mangledSymbol₀.startsWith "%T" || mangledSymbol₀.startsWith "s:" then
      "_$s" ++ mangledSymbol₀.drop 2
    else
      mangledSymbol₀
  match (spawnDemanglerSync [toolPath, "--expand", "--compact", mangledSymbol]).stdout with
  | none => Except.error "TypeError: stdout is null"
  | some stdout =>
    let lines := stdout.trim.splitOn "\n"
    let demangled := (lines.getLast?).getD ""
    if demangled.startsWith "<<NULL>>" then
      Except.ok none
    else
      Except.ok (some
        { demangled := demangled
          detailedText := some
            ("**Node structure for**\\\n`" ++ mangledSymbol ++ "`\n```plaintext\n"
              ++ String.intercalate "\n" (lines.drop 1).dropLast ++ "\n```") })

/-! ## Concrete instances

Closed values used to evaluate the embedded code on specific inputs:
small deterministic demanglers conforming to `IDemangler`, tiny documents,
and configuration environments. -/

/-- Path settings of a demangler whose tool is currently available. -/
def validPathSettings : DemanglerPathSettings :=
  { sectionName := "demangler.c++"
    currentToolPath := some "/usr/bin/tool"
    canSpawnTool := true }

/-- Path settings of a demangler whose tool is currently unavailable. -/
def invalidPathSettings : DemanglerPathSettings :=
  { sectionName := "demangler.swift"
    currentToolPath := some "/usr/bin/missing"
    canSpawnTool := false }

/-- A successful demangling outcome. -/
def okResult : DemangleResult := { demangled := "demangled K" }

/-- An available demangler matching the literal candidate `K` whose external
tool rejects every symbol (`demangle` always returns `null`). -/
def negDemangler : IDemangler :=
  { mangledSymbolPattern := .lit ['K']
    pathSettings := validPathSettings
    demangleFn := fun _ => none }

/-- An available demangler matching the literal candidate `K` whose external
tool resolves every symbol to `okResult`. -/
def posDemangler : IDemangler :=
  { mangledSymbolPattern := .lit ['K']
    pathSettings := validPathSettings
    demangleFn := fun _ => some okResult }

/-- An unavailable demangler matching the literal candidate `K`. -/
def offDemangler : IDemangler :=
  { mangledSymbolPattern := .lit ['K']
    pathSettings := invalidPathSettings
    demangleFn := fun _ => some okResult }

/-- A core with the single always-failing demangler and an empty cache. -/
def coreNegOnly : DemanglerCore :=
  { demanglers := [negDemangler], demangleCache := [] }

/-- A core registering the failing demangler before the succeeding one, both
matching the same candidate string `K`; empty cache. -/
def coreNegPos : DemanglerCore :=
  { demanglers := [negDemangler, posDemangler], demangleCache := [] }

/-- A core with one unavailable demangler and an empty cache. -/
def coreOffOnly : DemanglerCore :=
  { demanglers := [offDemangler], demangleCache := [] }

/-- A core with one available demangler and one cached positive entry. -/
def corePosCached : DemanglerCore :=
  { demanglers := [posDemangler], demangleCache := [("K", some okResult)] }

/-- One-line document `K K` (two occurrences of the candidate). -/
def docKK : TextDocument := { lines := ["K K"] }

/-- One-line document `K`. -/
def docK : TextDocument := { lines := ["K"] }

/-- The whole first line of `docKK`. -/
def rangeKK : Range := { start := { line := 0, character := 0 }, endPos := { line := 0, character := 3 } }

/-- The whole first line of `docK`. -/
def rangeK : Range := { start := { line := 0, character := 0 }, endPos := { line := 0, character := 1 } }

/-- A configuration environment that configures a new, spawnable tool path
for every section. -/
def envNewValidPath : ConfigEnv :=
  { toolPath := fun _ => some "/opt/other/tool"
    canSpawnSync := fun _ => true }

/-- A configuration change event touching every settings section. -/
def eventTouchingAll : ConfigurationChangeEvent :=
  { affectsConfiguration := fun _ => true }

/-- A document whose single line is longer than the 1 MiB scan ceiling. -/
def oversizedDoc : TextDocument :=
  { lines := [String.mk (List.replicate (1024 * 1024 + 1) 'a')] }

/-- A demangler matching runs of `a`, so `oversizedDoc`'s line is full of
candidates it would match if the line were ever scanned. -/
def aRunDemangler : IDemangler :=
  { mangledSymbolPattern := .plusCls fun c => c == 'a'
    pathSettings := validPathSettings
    demangleFn := fun _ => some okResult }

/-- A core with the `a`-run demangler and an empty cache. -/
def coreARun : DemanglerCore :=
  { demanglers := [aRunDemangler], demangleCache := [] }

/-- The whole (oversized) first line of `oversizedDoc`: its byte span is
`1024 * 1024 + 1`, one over the ceiling. -/
def oversizedRange : Range :=
  { start := { line := 0, character := 0 }
    endPos := { line := 0, character := 1024 * 1024 + 1 } }

/-- A spawn behaviour in which every spawn fails: `spawnSync` reports no
process output, `stdout` is `null`. -/
def spawnFailure : SpawnBehaviour := fun _ => { stdout := none }

/-- Two visible-range events 50ms apart — a burst inside one debounce
window. -/
def burstTwo : List (Nat × List Range) := [(0, [rangeKK]), (50, [rangeK])]

/-- A core with the succeeding demangler and a cached negative entry for the
candidate `K`. -/
def coreNegCached : DemanglerCore :=
  { demanglers := [posDemangler], demangleCache := [("K", none)] }

/-! ## Lemmas about pattern matching -/

theorem litMatch_length {cs s : List Char} (h : litMatch cs s = true) :
    cs.length ≤ s.length := by
  induction cs generalizing s with
  | nil => simp
  | cons c cs ih =>
    cases s with
    | nil => simp [litMatch] at h
    | cons d ds =>
      simp only [litMatch, Bool.and_eq_true] at h
      simpa using ih h.2

theorem runLen_le (p : Char → Bool) (s : List Char) : runLen p s ≤ s.length := by
  induction s with
  | nil => simp [runLen]
  | cons c cs ih =>
    simp only [runLen]
    split
    · simp only [List.length_cons]
      omega
    · simp

theorem lens_le (r : RE) (s : List Char) : ∀ l ∈ r.lens s, l ≤ s.length := by
  induction r generalizing s with
  | lit cs =>
    intro l hl
    simp only [RE.lens] at hl
    split at hl
    · next h => simp at hl; subst hl; exact litMatch_length h
    · simp at hl
  | cls p =>
    intro l hl
    cases s with
    | nil => simp [RE.lens] at hl
    | cons c cs =>
      simp only [RE.lens] at hl
      split at hl
      · simp at hl; subst hl; simp
      · simp at hl
  | seq a b iha ihb =>
    intro l hl
    simp only [RE.lens, List.mem_flatMap, List.mem_map] at hl
    obtain ⟨l1, h1, l2, h2, rfl⟩ := hl
    have := iha s l1 h1
    have := ihb (s.drop l1) l2 h2
    simp [List.length_drop] at *
    omega
  | alt a b iha ihb =>
    intro l hl
    simp only [RE.lens, List.mem_append] at hl
    rcases hl with h | h
    · exact iha s l h
    · exact ihb s l h
  | opt a iha =>
    intro l hl
    simp only [RE.lens, List.mem_append] at hl
    rcases hl with h | h
    · exact iha s l h
    · simp at h; omega
  | plusCls p =>
    intro l hl
    simp only [RE.lens, List.mem_map, List.mem_range] at hl
    obtain ⟨k, hk, rfl⟩ := hl
    have := runLen_le p s
    omega

theorem lens_pos (r : RE) (hr : r.nonNullable = true) (s : List Char) :
    ∀ l ∈ r.lens s, 1 ≤ l := by
  induction r generalizing s with
  | lit cs =>
    intro l hl
    simp only [RE.nonNullable, Bool.not_eq_true', List.isEmpty_eq_false] at hr
    simp only [RE.lens] at hl
    split at hl <;> simp at hl
    subst hl
    cases cs <;> simp_all
  | cls p =>
    intro l hl
    cases s with
    | nil => simp [RE.lens] at hl
    | cons c cs =>
      simp only [RE.lens] at hl
      split at hl
      · simp at hl; omega
      · simp at hl
  | seq a b iha ihb =>
    intro l hl
    simp only [RE.nonNullable, Bool.or_eq_true] at hr
    simp only [RE.lens, List.mem_flatMap, List.mem_map] at hl
    obtain ⟨l1, h1, l2, h2, rfl⟩ := hl
    rcases hr with h | h
    · have := iha h s l1 h1; omega
    · have := ihb h (s.drop l1) l2 h2; omega
  | alt a b iha ihb =>
    intro l hl
    simp only [RE.nonNullable, Bool.and_eq_true] at hr
    simp only [RE.lens, List.mem_append] at hl
    rcases hl with h | h
    · exact iha hr.1 s l h
    · exact ihb hr.2 s l h
  | opt a iha => simp [RE.nonNullable] at hr
  | plusCls p =>
    intro l hl
    simp only [RE.lens, List.mem_map, List.mem_range] at hl
    obtain ⟨k, hk, rfl⟩ := hl
    omega

theorem execSearchAux_spec (re : RE) (s : List Char) (j j' l : Nat)
    (h : execSearchAux re s j = some (j', l)) :
    j ≤ j' ∧ j' - j ≤ s.length ∧ l ∈ re.lens (s.drop (j' - j)) := by
  induction s generalizing j with
  | nil =>
    simp only [execSearchAux] at h
    split at h
    · next l0 hh =>
      simp only [Option.some.injEq, Prod.mk.injEq] at h
      obtain ⟨rfl, rfl⟩ := h
      refine ⟨le_refl _, by simp, ?_⟩
      simp only [Nat.sub_self, List.drop_nil]
      exact List.mem_of_mem_head? hh
    · exact absurd h (by simp)
  | cons c rest ih =>
    simp only [execSearchAux] at h
    split at h
    · next l0 hh =>
      simp only [Option.some.injEq, Prod.mk.injEq] at h
      obtain ⟨rfl, rfl⟩ := h
      refine ⟨le_refl _, by simp, ?_⟩
      simpa using List.mem_of_mem_head? hh
    · have := ih (j + 1) h
      obtain ⟨h1, h2, h3⟩ := this
      refine ⟨by omega, by simp; omega, ?_⟩
      have heq : j' - j = (j' - (j + 1)) + 1 := by omega
      rw [heq, List.drop_succ_cons]
      exact h3

theorem execSearch_spec (re : RE) (chars : List Char) (i j l : Nat)
    (h : execSearch re chars i = some (j, l)) :
    i ≤ j ∧ j - i ≤ (chars.drop i).length ∧ l ∈ re.lens (chars.drop j) := by
  obtain ⟨h1, h2, h3⟩ := execSearchAux_spec re (chars.drop i) i j l h
  refine ⟨h1, h2, ?_⟩
  rwa [List.drop_drop, Nat.add_sub_cancel' h1] at h3

theorem execAdvances_of_nonNullable (re : RE) (hr : re.nonNullable = true)
    (chars : List Char) (i : Nat) : execAdvances re chars i = true := by
  unfold execAdvances
  split
  · rfl
  · next j l h =>
    obtain ⟨h1, h2, h3⟩ := execSearch_spec re chars i j l h
    have hp := lens_pos re hr (chars.drop j) l h3
    have hle := lens_le re (chars.drop j) l h3
    simp only [List.length_drop] at h2 hle
    simp only [decide_eq_true_eq]
    omega

theorem execLoop_isSome_of_nonNullable (re : RE) (hr : re.nonNullable = true)
    (chars : List Char) :
    ∀ fuel i, chars.length - i < fuel → (execLoop re chars fuel i).isSome = true := by
  intro fuel
  induction fuel with
  | zero => intro i h; omega
  | succ fuel ih =>
    intro i hi
    simp only [execLoop]
    split
    · rfl
    · next j l h =>
      obtain ⟨h1, h2, h3⟩ := execSearch_spec re chars i j l h
      have hp := lens_pos re hr (chars.drop j) l h3
      have hle := lens_le re (chars.drop j) l h3
      simp only [List.length_drop] at h2 hle
      have hrec := ih (j + l) (by omega)
      cases hE : execLoop re chars fuel (j + l) with
      | none => rw [hE] at hrec; simp at hrec
      | some out => simp [hE]

/-! ## Lemmas about the cache and the resolution pass -/

theorem cacheGet_set_self (c : DemangleCache) (k : String) (v : Option DemangleResult) :
    cacheGet (cacheSet c k v) k = some v := by
  induction c with
  | nil => simp [cacheSet, cacheGet]
  | cons p rest ih =>
    simp only [cacheSet]
    split
    · next h => simp [cacheGet, h]
    · next h => simp [cacheGet, h, ih]

theorem cacheGet_set_ne (c : DemangleCache) (k k' : String) (v : Option DemangleResult)
    (h : k' ≠ k) : cacheGet (cacheSet c k v) k' = cacheGet c k' := by
  induction c with
  | nil => simp [cacheSet, cacheGet, Ne.symm h]
  | cons p rest ih =>
    simp only [cacheSet]
    split
    · next he =>
      subst he
      simp [cacheGet, Ne.symm h]
    · next he => simp [cacheGet, ih]

theorem lookupSymbolInCacheOrDemangle_hit (core : DemanglerCore) (s : String)
    (d : IDemangler) (r : DemangleResult)
    (h : cacheGet core.demangleCache s = some (some r)) :
    core.lookupSymbolInCacheOrDemangle s d = (some r, core, []) := by
  simp [DemanglerCore.lookupSymbolInCacheOrDemangle, h]

theorem lookupSymbolInCacheOrDemangle_miss_none (core : DemanglerCore) (s : String)
    (d : IDemangler) (h : cacheGet core.demangleCache s = none) :
    core.lookupSymbolInCacheOrDemangle s d =
      (d.demangle s,
        { core with demangleCache := cacheSet core.demangleCache s (d.demangle s) },
        [(d, s)]) := by
  simp [DemanglerCore.lookupSymbolInCacheOrDemangle, h]

theorem lookupSymbolInCacheOrDemangle_miss_neg (core : DemanglerCore) (s : String)
    (d : IDemangler) (h : cacheGet core.demangleCache s = some none) :
    core.lookupSymbolInCacheOrDemangle s d =
      (d.demangle s,
        { core with demangleCache := cacheSet core.demangleCache s (d.demangle s) },
        [(d, s)]) := by
  simp [DemanglerCore.lookupSymbolInCacheOrDemangle, h]

/-- The cache of the core after one lookup, at a key other than the looked-up
symbol, is unchanged. -/
theorem lookupSymbolInCacheOrDemangle_other (core : DemanglerCore) (s : String)
    (d : IDemangler) (k : String) (hk : k ≠ s) :
    cacheGet (core.lookupSymbolInCacheOrDemangle s d).2.1.demangleCache k
      = cacheGet core.demangleCache k := by
  cases hC : cacheGet core.demangleCache s with
  | none =>
    rw [lookupSymbolInCacheOrDemangle_miss_none core s d hC]
    exact cacheGet_set_ne _ _ _ _ hk
  | some w =>
    cases w with
    | none =>
      rw [lookupSymbolInCacheOrDemangle_miss_neg core s d hC]
      exact cacheGet_set_ne _ _ _ _ hk
    | some r =>
      rw [lookupSymbolInCacheOrDemangle_hit core s d r hC]

/-- The state and log components of a resolution step on a non-empty
occurrence list, independent of whether the outcome is kept or dropped. -/
theorem demangleAll_cons_snd (core : DemanglerCore) (occ : MangledSymbolOccurrence)
    (rest : List MangledSymbolOccurrence) :
    (core.demangleAll (occ :: rest)).2 =
      (((core.lookupSymbolInCacheOrDemangle occ.symbol occ.demangler).2.1.demangleAll rest).2.1,
        (core.lookupSymbolInCacheOrDemangle occ.symbol occ.demangler).2.2 ++
          ((core.lookupSymbolInCacheOrDemangle occ.symbol occ.demangler).2.1.demangleAll rest).2.2) := by
  simp only [DemanglerCore.demangleAll]
  split <;> rfl

/-- A cached positive entry survives a whole resolution pass unchanged. -/
theorem demangleAll_preserves_pos (occs : List MangledSymbolOccurrence) :
    ∀ (core : DemanglerCore) (k : String) (r : DemangleResult),
      cacheGet core.demangleCache k = some (some r) →
      cacheGet (core.demangleAll occs).2.1.demangleCache k = some (some r) := by
  induction occs with
  | nil => intro core k r h; exact h
  | cons occ rest ih =>
    intro core k r h
    rw [demangleAll_cons_snd]
    refine ih _ k r ?_
    by_cases hk : k = occ.symbol
    · subst hk
      rw [lookupSymbolInCacheOrDemangle_hit core occ.symbol occ.demangler r h]
      exact h
    · rwa [lookupSymbolInCacheOrDemangle_other core occ.symbol occ.demangler k hk]

/-- A resolution pass never removes a cache entry: every key present before
is present after. -/
theorem demangleAll_preserves_mem (occs : List MangledSymbolOccurrence) :
    ∀ (core : DemanglerCore) (k : String) (w : Option DemangleResult),
      cacheGet core.demangleCache k = some w →
      ∃ w', cacheGet (core.demangleAll occs).2.1.demangleCache k = some w' := by
  induction occs with
  | nil => intro core k w h; exact ⟨w, h⟩
  | cons occ rest ih =>
    intro core k w h
    rw [demangleAll_cons_snd]
    by_cases hk : k = occ.symbol
    · subst hk
      cases w with
      | none =>
        refine ih _ occ.symbol (occ.demangler.demangle occ.symbol) ?_
        rw [lookupSymbolInCacheOrDemangle_miss_neg core occ.symbol occ.demangler h]
        exact cacheGet_set_self _ _ _
      | some r =>
        refine ih _ occ.symbol (some r) ?_
        rw [lookupSymbolInCacheOrDemangle_hit core occ.symbol occ.demangler r h]
        exact h
    · refine ih _ k w ?_
      rwa [lookupSymbolInCacheOrDemangle_other core occ.symbol occ.demangler k hk]

/-- Keys for which the pass logged no external invocation keep their exact
cache state. -/
theorem demangleAll_unlogged_unchanged (occs : List MangledSymbolOccurrence) :
    ∀ (core : DemanglerCore) (k : String),
      (∀ e ∈ (core.demangleAll occs).2.2, e.2 ≠ k) →
      cacheGet (core.demangleAll occs).2.1.demangleCache k = cacheGet core.demangleCache k := by
  induction occs with
  | nil => intro core k _; rfl
  | cons occ rest ih =>
    intro core k h
    rw [demangleAll_cons_snd] at h ⊢
    have htail : ∀ e ∈ ((core.lookupSymbolInCacheOrDemangle occ.symbol occ.demangler).2.1.demangleAll rest).2.2,
        e.2 ≠ k := fun e he => h e (List.mem_append_right _ he)
    rw [ih _ k htail]
    cases hC : cacheGet core.demangleCache occ.symbol with
    | none =>
      have hstep : k ≠ occ.symbol := by
        have := h (occ.demangler, occ.symbol) (by
          rw [lookupSymbolInCacheOrDemangle_miss_none core occ.symbol occ.demangler hC]
          simp)
        simpa [eq_comm] using this
      exact lookupSymbolInCacheOrDemangle_other core occ.symbol occ.demangler k hstep
    | some w =>
      cases w with
      | none =>
        have hstep : k ≠ occ.symbol := by
          have := h (occ.demangler, occ.symbol) (by
            rw [lookupSymbolInCacheOrDemangle_miss_neg core occ.symbol occ.demangler hC]
            simp)
          simpa [eq_comm] using this
        exact lookupSymbolInCacheOrDemangle_other core occ.symbol occ.demangler k hstep
      | some r => rw [lookupSymbolInCacheOrDemangle_hit core occ.symbol occ.demangler r hC]

/-- When the cache already holds a positive outcome for a key, a whole
resolution pass never performs an external invocation for that key. -/
theorem demangleAll_no_call_of_pos (occs : List MangledSymbolOccurrence) :
    ∀ (core : DemanglerCore) (k : String) (r : DemangleResult),
      cacheGet core.demangleCache k = some (some r) →
      ∀ e ∈ (core.demangleAll occs).2.2, e.2 ≠ k := by
  induction occs with
  | nil => intro core k r _ e he; simp [DemanglerCore.demangleAll] at he
  | cons occ rest ih =>
    intro core k r h e he
    rw [demangleAll_cons_snd] at he
    rcases List.mem_append.mp he with hstep | htail
    · by_cases hk : occ.symbol = k
      · subst hk
        rw [lookupSymbolInCacheOrDemangle_hit core occ.symbol occ.demangler r h] at hstep
        simp at hstep
      · cases hC : cacheGet core.demangleCache occ.symbol with
        | none =>
          rw [lookupSymbolInCacheOrDemangle_miss_none core occ.symbol occ.demangler hC] at hstep
          simp at hstep
          subst hstep
          simpa using hk
        | some w =>
          cases w with
          | none =>
            rw [lookupSymbolInCacheOrDemangle_miss_neg core occ.symbol occ.demangler hC] at hstep
            simp at hstep
            subst hstep
            simpa using hk
          | some r' =>
            rw [lookupSymbolInCacheOrDemangle_hit core occ.symbol occ.demangler r' hC] at hstep
            simp at hstep
    · refine ih _ k r ?_ e htail
      by_cases hk : k = occ.symbol
      · subst hk
        rw [lookupSymbolInCacheOrDemangle_hit core occ.symbol occ.demangler r h]
        exact h
      · rwa [lookupSymbolInCacheOrDemangle_other core occ.symbol occ.demangler k hk]

/-- Every logged external invocation is the demangler/symbol pair of one of
the scanned occurrences. -/
theorem demangleAll_log_mem (occs : List MangledSymbolOccurrence) :
    ∀ (core : DemanglerCore) (e : IDemangler × String),
      e ∈ (core.demangleAll occs).2.2 →
      ∃ occ ∈ occs, e = (occ.demangler, occ.symbol) := by
  induction occs with
  | nil => intro core e he; simp [DemanglerCore.demangleAll] at he
  | cons occ rest ih =>
    intro core e he
    rw [demangleAll_cons_snd] at he
    rcases List.mem_append.mp he with hstep | htail
    · refine ⟨occ, by simp, ?_⟩
      cases hC : cacheGet core.demangleCache occ.symbol with
      | none =>
        rw [lookupSymbolInCacheOrDemangle_miss_none core occ.symbol occ.demangler hC] at hstep
        simpa using hstep
      | some w =>
        cases w with
        | none =>
          rw [lookupSymbolInCacheOrDemangle_miss_neg core occ.symbol occ.demangler hC] at hstep
          simpa using hstep
        | some r =>
          rw [lookupSymbolInCacheOrDemangle_hit core occ.symbol occ.demangler r hC] at hstep
          simp at hstep
    · obtain ⟨occ', h1, h2⟩ := ih _ e htail
      exact ⟨occ', by simp [h1], h2⟩

/-- Every scanned occurrence was either already in the cache before the pass
or had an external invocation logged for its symbol during the pass. -/
theorem demangleAll_attempted (occs : List MangledSymbolOccurrence) :
    ∀ (core : DemanglerCore) (occ : MangledSymbolOccurrence), occ ∈ occs →
      (∃ w, cacheGet core.demangleCache occ.symbol = some w) ∨
      ∃ e ∈ (core.demangleAll occs).2.2, e.2 = occ.symbol := by
  induction occs with
  | nil => intro core occ h; simp at h
  | cons occ0 rest ih =>
    intro core occ hmem
    rcases List.mem_cons.mp hmem with rfl | htail
    · cases hC : cacheGet core.demangleCache occ.symbol with
      | none =>
        right
        refine ⟨(occ.demangler, occ.symbol), ?_, rfl⟩
        rw [demangleAll_cons_snd]
        refine List.mem_append_left _ ?_
        rw [lookupSymbolInCacheOrDemangle_miss_none core occ.symbol occ.demangler hC]
        simp
      | some w => exact Or.inl ⟨w, rfl⟩
    · cases hC : cacheGet core.demangleCache occ.symbol with
      | none =>
        rcases ih ((core.lookupSymbolInCacheOrDemangle occ0.symbol occ0.demangler).2.1) occ htail with hcached | hlogged
        · -- the key became cached during the head step, so the head step wrote
          -- (and logged) exactly this symbol
          right
          obtain ⟨w, hw⟩ := hcached
          by_cases hk : occ.symbol = occ0.symbol
          · refine ⟨(occ0.demangler, occ0.symbol), ?_, by rw [hk]⟩
            rw [demangleAll_cons_snd]
            refine List.mem_append_left _ ?_
            rw [hk] at hC
            rw [lookupSymbolInCacheOrDemangle_miss_none core occ0.symbol occ0.demangler hC]
            simp
          · rw [lookupSymbolInCacheOrDemangle_other core occ0.symbol occ0.demangler occ.symbol hk] at hw
            rw [hC] at hw
            cases hw
        · right
          obtain ⟨e, he, hes⟩ := hlogged
          refine ⟨e, ?_, hes⟩
          rw [demangleAll_cons_snd]
          exact List.mem_append_right _ he
      | some w => exact Or.inl ⟨w, rfl⟩

/-! ## Lemmas about scanning and configuration handling -/

theorem scanLineWithDemangler_demangler (d : IDemangler) (line : Nat) (text : String) :
    ∀ occ ∈ scanLineWithDemangler d line text, occ.demangler = d := by
  intro occ h
  simp only [scanLineWithDemangler, List.mem_map] at h
  obtain ⟨m, _, rfl⟩ := h
  rfl

/-- Every collected occurrence belongs to a demangler that was available when
the scan ran: the scan loop skips unavailable demanglers before any pattern
matching. -/
theorem collectMangledSymbols_available (core : DemanglerCore) (document : TextDocument)
    (ranges : List Range) :
    ∀ occ ∈ collectMangledSymbols core document ranges, occ.demangler.isAvailable = true := by
  intro occ h
  simp only [collectMangledSymbols, List.mem_flatMap] at h
  obtain ⟨range, _, line, _, d, hd, hocc⟩ := h
  by_cases hA : d.isAvailable
  · rw [scanLineWithDemangler_demangler d line _ occ (by simpa [hA] using hocc)]
    exact hA
  · simp [hA] at hocc

/-- The `didAnyInvalidate` accumulator of `onDidChangeConfiguration` is the OR
of the per-demangler results. -/
theorem configFold_any (env : ConfigEnv) (event : ConfigurationChangeEvent) :
    ∀ (ds : List IDemangler) (acc : List IDemangler × Bool),
      (ds.foldl (fun (acc : List IDemangler × Bool) demangler =>
          let r := demangler.onDidChangeConfiguration env event
          (acc.1 ++ [r.1], acc.2 || r.2)) acc).2
        = (acc.2 || ds.any fun d => (d.onDidChangeConfiguration env event).2) := by
  intro ds
  induction ds with
  | nil => intro acc; simp
  | cons d rest ih =>
    intro acc
    simp only [List.foldl_cons, List.any_cons]
    rw [ih]
    simp [Bool.or_assoc]

/-- `onDidChangeConfiguration` clears the cache and fires one invalidation
event exactly when some demangler's handler returned `true`; otherwise the
cache is untouched and no event fires. -/
theorem onDidChangeConfiguration_spec (core : DemanglerCore) (env : ConfigEnv)
    (event : ConfigurationChangeEvent) :
    (core.onDidChangeConfiguration env event).1.demangleCache
        = (if (core.demanglers.any fun d => (d.onDidChangeConfiguration env event).2)
            then [] else core.demangleCache)
      ∧ (core.onDidChangeConfiguration env event).2
        = (if (core.demanglers.any fun d => (d.onDidChangeConfiguration env event).2)
            then [()] else []) := by
  unfold DemanglerCore.onDidChangeConfiguration
  simp only [configFold_any env event core.demanglers ([], false), Bool.false_or]
  by_cases h : (core.demanglers.any fun d => (d.onDidChangeConfiguration env event).2)
  · simp [h]
  · simp [h]

/-- `updateAvailability(event)` returns `true` exactly when the event touches
this settings section and the configured tool path differs from the stored
one — availability itself need not change. -/
theorem updateAvailability_ret (ps : DemanglerPathSettings) (env : ConfigEnv)
    (e : ConfigurationChangeEvent) :
    (ps.updateAvailability env (some e)).2
      = (e.affectsConfiguration ps.sectionName
          && decide (ps.currentToolPath ≠ env.toolPath ps.sectionName)) := by
  unfold DemanglerPathSettings.updateAvailability
  cases hA : e.affectsConfiguration ps.sectionName with
  | false => simp [hA]
  | true =>
    by_cases hP : ps.currentToolPath = env.toolPath ps.sectionName
    · simp [hA, hP]
    · simp [hA, hP]

/-- An oversized range (byte span over the 1 MiB ceiling) contributes no
lines to the scan. -/
theorem linesToScan_oversized (document : TextDocument) (range : Range)
    (h : document.offsetAt range.endPos - document.offsetAt range.start > 1024 * 1024) :
    linesToScan document range = [] := by
  unfold linesToScan
  simp only [if_pos h]

/-! ## Lemmas about the decorator's debounce timer -/

/-- Running a debounce-window burst of visible-range events while a timer set
at `t0` is pending produces no annotation pass and leaves the timer armed for
100ms after the last event of the burst. -/
theorem runDecoratorEvents_burst (events : List (Nat × List Range)) :
    ∀ (t0 : Nat) (rs0 : List Range),
      (match events with
       | [] => True
       | (t1, _) :: _ => t0 ≤ t1 ∧ t1 < t0 + 100) →
      burstWithinDebounce events = true →
      runDecoratorEvents { changeVisibleRangesTimer := some (t0 + 100, rs0) }
          (events.map fun e => (e.1, DecoratorEvent.changeVisibleRanges e.2))
        = ({ changeVisibleRangesTimer :=
              some ((events.getLastD (t0, rs0)).1 + 100, (events.getLastD (t0, rs0)).2) },
            []) := by
  induction events with
  | nil =>
    intro t0 rs0 _ _
    simp [runDecoratorEvents, List.getLastD]
  | cons e1 rest ih =>
    intro t0 rs0 hlink hburst
    obtain ⟨t1, rs1⟩ := e1
    obtain ⟨hle, hlt⟩ := hlink
    simp only [List.map_cons, runDecoratorEvents]
    have hfire : fireDueTimer { changeVisibleRangesTimer := some (t0 + 100, rs0) } t1
        = ({ changeVisibleRangesTimer := some (t0 + 100, rs0) }, []) := by
      simp [fireDueTimer]
      omega
    rw [hfire]
    have hhandle : handleDecoratorEvent { changeVisibleRangesTimer := some (t0 + 100, rs0) } t1
        (DecoratorEvent.changeVisibleRanges rs1)
        = ({ changeVisibleRangesTimer := some (t1 + 100, rs1) }, []) := rfl
    rw [hhandle]
    have hrest : runDecoratorEvents { changeVisibleRangesTimer := some (t1 + 100, rs1) }
        (rest.map fun e => (e.1, DecoratorEvent.changeVisibleRanges e.2))
        = ({ changeVisibleRangesTimer :=
              some ((rest.getLastD (t1, rs1)).1 + 100, (rest.getLastD (t1, rs1)).2) },
            []) := by
      refine ih t1 rs1 ?_ ?_
      · cases rest with
        | nil => trivial
        | cons e2 rest' =>
          obtain ⟨t2, rs2⟩ := e2
          simp only [burstWithinDebounce, Bool.and_eq_true, decide_eq_true_eq] at hburst
          exact ⟨hburst.1.1, hburst.1.2⟩
      · cases rest with
        | nil => rfl
        | cons e2 rest' =>
          obtain ⟨t2, rs2⟩ := e2
          simp only [burstWithinDebounce, Bool.and_eq_true] at hburst
          exact hburst.2
    rw [hrest, List.getLastD_cons]
    rfl

/-! ## Claim theorems -/

/-- C1: the claim says `R.demangle` is invoked at most once per exact
candidate string across calls with no invalidation, and never again after a
negative outcome.  The code violates this: `lookupSymbolInCacheOrDemangle`
tests the cached value with a truthiness check, so a cached `null` (negative)
is indistinguishable from an absent entry and the demangler is re-invoked.
Evaluation at the failing input: one `demangleSymbolsInRanges` call on the
line `K K`, with a demangler for which `demangle("K")` is `null`, invokes
`demangle` twice for the exact string `K`. -/
theorem c1_cached_negative_reinvoked :
    negDemangler.demangle "K" = none
    ∧ ((coreNegOnly.demangleSymbolsInRanges docKK [rangeKK]).2.2.filter
        fun e => e.2 == "K").length = 2 := ⟨rfl, rfl⟩

/-- C2 (counterexample): the cache is *not* cleared exactly when some
demangler's availability state actually changed, and `demangleSymbolsInRanges`
does not only add entries.  (a) A configuration event that changes a
demangler's tool path from one spawnable tool to another leaves every
demangler's `isAvailable()` unchanged (`true` before and after), yet the
cache is cleared.  (b) A pass over a candidate whose entry is a cached
negative overwrites that entry (here `K ↦ null` becomes `K ↦ result`) rather
than only adding entries. -/
theorem c2_counterexample :
    ((corePosCached.demanglers.map IDemangler.isAvailable = [true]
        ∧ (corePosCached.onDidChangeConfiguration envNewValidPath
            eventTouchingAll).1.demanglers.map IDemangler.isAvailable = [true])
      ∧ corePosCached.demangleCache ≠ []
      ∧ (corePosCached.onDidChangeConfiguration envNewValidPath
          eventTouchingAll).1.demangleCache = [])
    ∧ (coreNegCached.demangleCache = [("K", none)]
      ∧ (coreNegCached.demangleSymbolsInRanges docK [rangeK]).2.1.demangleCache
          = [("K", some okResult)]) := by
  exact ⟨⟨⟨rfl, rfl⟩, by decide, rfl⟩, ⟨rfl, rfl⟩⟩

/-- C2 (amended): the cache is cleared exactly when some demangler's
`onDidChangeConfiguration` returns `true`, and a demangler returns `true`
exactly when the event touches its settings section and the configured tool
path actually changed (availability itself need not change).  No operation
removes cache entries: a `demangleSymbolsInRanges` pass keeps every existing
key present and keeps every cached positive entry unchanged (a cached
negative may be overwritten when its candidate is re-attempted); content
edits and scrolling only ever trigger such passes, never a clear. -/
theorem c2_cache_frame (core : DemanglerCore) (env : ConfigEnv)
    (ev : ConfigurationChangeEvent) (doc : TextDocument) (ranges : List Range)
    (k : String) (w : Option DemangleResult)
    (h : cacheGet core.demangleCache k = some w) :
    ((core.onDidChangeConfiguration env ev).1.demangleCache
        = if (core.demanglers.any fun d => (d.onDidChangeConfiguration env ev).2)
          then [] else core.demangleCache)
    ∧ (∀ d : IDemangler, (d.onDidChangeConfiguration env ev).2
        = (ev.affectsConfiguration d.pathSettings.sectionName
            && decide (d.pathSettings.currentToolPath ≠ env.toolPath d.pathSettings.sectionName)))
    ∧ (∃ w', cacheGet (core.demangleSymbolsInRanges doc ranges).2.1.demangleCache k = some w')
    ∧ (∀ r, w = some r →
        cacheGet (core.demangleSymbolsInRanges doc ranges).2.1.demangleCache k = some (some r)) := by
  refine ⟨(onDidChangeConfiguration_spec core env ev).1, ?_, ?_, ?_⟩
  · intro d
    exact updateAvailability_ret d.pathSettings env ev
  · exact demangleAll_preserves_mem _ core k w h
  · intro r hr
    subst hr
    exact demangleAll_preserves_pos _ core k r h

/-- C2 witness: the amended frame property evaluated on a concrete core with
one cached positive entry. -/
theorem c2_cache_frame_witness :
    cacheGet corePosCached.demangleCache "K" = some (some okResult)
    ∧ (((corePosCached.onDidChangeConfiguration envNewValidPath eventTouchingAll).1.demangleCache
        = if (corePosCached.demanglers.any fun d =>
              (d.onDidChangeConfiguration envNewValidPath eventTouchingAll).2)
          then [] else corePosCached.demangleCache)
      ∧ (∀ d : IDemangler, (d.onDidChangeConfiguration envNewValidPath eventTouchingAll).2
          = (eventTouchingAll.affectsConfiguration d.pathSettings.sectionName
              && decide (d.pathSettings.currentToolPath
                  ≠ envNewValidPath.toolPath d.pathSettings.sectionName)))
      ∧ (∃ w', cacheGet (corePosCached.demangleSymbolsInRanges docK [rangeK]).2.1.demangleCache "K"
            = some w')
      ∧ (∀ r, some okResult = some r →
          cacheGet (corePosCached.demangleSymbolsInRanges docK [rangeK]).2.1.demangleCache "K"
            = some (some r))) :=
  ⟨rfl, c2_cache_frame corePosCached envNewValidPath eventTouchingAll docK [rangeK]
    "K" (some okResult) rfl⟩

/-- C3: when a configuration event makes some demangler report a change, the
core fires exactly one invalidation event, the state every subscriber
observes already has an empty cache (the clear happens before the fire), and
on any following `demangleSymbolsInRanges` call every scanned candidate —
cached negatives included — is re-attempted: an external invocation is logged
for its symbol. -/
theorem c3_clear_before_fire (core : DemanglerCore) (env : ConfigEnv)
    (ev : ConfigurationChangeEvent)
    (h : (core.onDidChangeConfiguration env ev).2 ≠ []) :
    (core.onDidChangeConfiguration env ev).2 = [()]
    ∧ (core.onDidChangeConfiguration env ev).1.demangleCache = []
    ∧ ∀ (doc : TextDocument) (ranges : List Range),
        ∀ occ ∈ collectMangledSymbols (core.onDidChangeConfiguration env ev).1 doc ranges,
          ∃ e ∈ ((core.onDidChangeConfiguration env ev).1.demangleSymbolsInRanges
              doc ranges).2.2, e.2 = occ.symbol := by
  obtain ⟨hcache, hev⟩ := onDidChangeConfiguration_spec core env ev
  by_cases hany : (core.demanglers.any fun d => (d.onDidChangeConfiguration env ev).2)
  · refine ⟨by rw [hev, if_pos hany], by rw [hcache, if_pos hany], ?_⟩
    intro doc ranges occ hocc
    rcases demangleAll_attempted _ _ occ hocc with ⟨w, hw⟩ | hlogged
    · rw [hcache, if_pos hany] at hw
      cases hw
    · exact hlogged
  · rw [hev, if_neg hany] at h
    exact absurd rfl h

/-- C3 witness: a concrete tool-path change fires the event, and the observed
state has an empty cache. -/
theorem c3_clear_before_fire_witness :
    (corePosCached.onDidChangeConfiguration envNewValidPath eventTouchingAll).2 ≠ []
    ∧ ((corePosCached.onDidChangeConfiguration envNewValidPath eventTouchingAll).2 = [()]
      ∧ (corePosCached.onDidChangeConfiguration envNewValidPath eventTouchingAll).1.demangleCache = []
      ∧ ∀ (doc : TextDocument) (ranges : List Range),
          ∀ occ ∈ collectMangledSymbols
              (corePosCached.onDidChangeConfiguration envNewValidPath eventTouchingAll).1 doc ranges,
            ∃ e ∈ ((corePosCached.onDidChangeConfiguration envNewValidPath
                eventTouchingAll).1.demangleSymbolsInRanges doc ranges).2.2,
              e.2 = occ.symbol) :=
  ⟨by decide, c3_clear_before_fire corePosCached envNewValidPath eventTouchingAll (by decide)⟩

/-- C4: while a demangler is unavailable, no candidate it could match is
collected (every collected occurrence belongs to an available demangler, so
never to it), its `demangle` is never invoked (every logged invocation
belongs to an available demangler), and it stores nothing in the cache (a key
with no logged invocation keeps its exact prior cache state, so all writes
belong to logged — hence available — demanglers). -/
theorem c4_unavailable_excluded (core : DemanglerCore) (doc : TextDocument)
    (ranges : List Range) (d : IDemangler) (k : String)
    (h : d.isAvailable = false) :
    (∀ occ ∈ collectMangledSymbols core doc ranges,
        occ.demangler.isAvailable = true ∧ occ.demangler ≠ d)
    ∧ (∀ e ∈ (core.demangleSymbolsInRanges doc ranges).2.2,
        e.1.isAvailable = true ∧ e.1 ≠ d)
    ∧ ((∀ e ∈ (core.demangleSymbolsInRanges doc ranges).2.2, e.2 ≠ k) →
        cacheGet (core.demangleSymbolsInRanges doc ranges).2.1.demangleCache k
          = cacheGet core.demangleCache k) := by
  refine ⟨?_, ?_, ?_⟩
  · intro occ hocc
    have hav := collectMangledSymbols_available core doc ranges occ hocc
    exact ⟨hav, fun heq => by rw [heq, h] at hav; cases hav⟩
  · intro e he
    obtain ⟨occ, hocc, rfl⟩ := demangleAll_log_mem _ core e he
    have hav := collectMangledSymbols_available core doc ranges occ hocc
    refine ⟨hav, fun heq => ?_⟩
    have hde : occ.demangler = d := heq
    rw [hde, h] at hav
    cases hav
  · intro hlog
    exact demangleAll_unlogged_unchanged _ core k hlog

/-- C4 witness: a core whose only demangler is unavailable, on a document its
pattern would match. -/
theorem c4_unavailable_excluded_witness :
    offDemangler.isAvailable = false
    ∧ ((∀ occ ∈ collectMangledSymbols coreOffOnly docK [rangeK],
          occ.demangler.isAvailable = true ∧ occ.demangler ≠ offDemangler)
      ∧ (∀ e ∈ (coreOffOnly.demangleSymbolsInRanges docK [rangeK]).2.2,
          e.1.isAvailable = true ∧ e.1 ≠ offDemangler)
      ∧ ((∀ e ∈ (coreOffOnly.demangleSymbolsInRanges docK [rangeK]).2.2, e.2 ≠ "K") →
          cacheGet (coreOffOnly.demangleSymbolsInRanges docK [rangeK]).2.1.demangleCache "K"
            = cacheGet coreOffOnly.demangleCache "K")) :=
  ⟨rfl, c4_unavailable_excluded coreOffOnly docK [rangeK] offDemangler "K" rfl⟩

/-- C5: the claim says two back-to-back `demangleSymbolsInRanges` calls with
no intervening edits, configuration changes, or invalidation and
deterministic demanglers yield identical outputs.  The code violates this:
with two demanglers both matching the candidate `K`, the first rejecting it
and the second resolving it, the first call yields one symbol while the
second call yields two — the positive outcome cached (under the raw string
key) by the second demangler is returned for the first demangler's
occurrence on the repeat call, because the truthiness cache check skipped the
first demangler's negative. -/
theorem c5_not_idempotent :
    (coreNegPos.demangleSymbolsInRanges docK [rangeK]).1.length = 1
    ∧ ((coreNegPos.demangleSymbolsInRanges docK [rangeK]).2.1.demangleSymbolsInRanges
        docK [rangeK]).1.length = 2
    ∧ ((coreNegPos.demangleSymbolsInRanges docK [rangeK]).2.1.demangleSymbolsInRanges
        docK [rangeK]).1
      ≠ (coreNegPos.demangleSymbolsInRanges docK [rangeK]).1 :=
  ⟨rfl, rfl, by decide⟩

/-- C6 (counterexample): the claim says an oversized range is "reported to
the caller as skipped, too large"; the code skips it silently (the warning is
a `TODO`).  The call's entire observable outcome — returned symbols, final
core state, and invocation log — on an oversized range is identical to the
call given no ranges at all, and is empty, even though the skipped line is
full of candidates the registered demangler matches. -/
theorem c6_counterexample :
    coreARun.demangleSymbolsInRanges oversizedDoc [oversizedRange]
        = coreARun.demangleSymbolsInRanges oversizedDoc []
    ∧ coreARun.demangleSymbolsInRanges oversizedDoc [oversizedRange]
        = ([], coreARun, []) := ⟨rfl, rfl⟩

/-- C6 (amended): a requested range whose byte span exceeds the `1024 * 1024`
ceiling is skipped entirely and silently: the whole call behaves exactly as
if the range had not been requested — no spans from it, no demangler
invocation, no cache write, and no report to the caller (the user warning is
left as a `TODO` in the source). -/
theorem c6_oversized_skipped (core : DemanglerCore) (doc : TextDocument)
    (range : Range) (ranges : List Range)
    (h : doc.offsetAt range.endPos - doc.offsetAt range.start > 1024 * 1024) :
    core.demangleSymbolsInRanges doc (range :: ranges)
      = core.demangleSymbolsInRanges doc ranges := by
  unfold DemanglerCore.demangleSymbolsInRanges
  have hc : collectMangledSymbols core doc (range :: ranges)
      = collectMangledSymbols core doc ranges := by
    unfold collectMangledSymbols
    rw [List.flatMap_cons, linesToScan_oversized doc range h]
    simp
  rw [hc]

/-- C6 witness: the amended skip property evaluated at the concrete oversized
range. -/
theorem c6_oversized_skipped_witness :
    oversizedDoc.offsetAt oversizedRange.endPos - oversizedDoc.offsetAt oversizedRange.start
        > 1024 * 1024
    ∧ coreARun.demangleSymbolsInRanges oversizedDoc [oversizedRange]
        = coreARun.demangleSymbolsInRanges oversizedDoc [] :=
  ⟨by decide, c6_oversized_skipped coreARun oversizedDoc oversizedRange [] (by decide)⟩

/-- C7: every burst of N ≥ 1 visible-range-change events, each arriving
inside the 100ms window opened by the previous one, produces exactly one
annotation pass, and that pass uses the ranges of the last event of the
burst (firing 100ms after it); a document-edit event is not debounced — its
handler performs the annotation pass immediately. -/
theorem c7_debounce_coalesces (events : List (Nat × List Range))
    (h1 : events ≠ []) (h2 : burstWithinDebounce events = true) :
    decoratorPasses (events.map fun e => (e.1, DecoratorEvent.changeVisibleRanges e.2))
        = [{ time := (events.getLastD (0, [])).1 + 100,
             ranges := (events.getLastD (0, [])).2 }]
    ∧ ∀ (st : DecoratorState) (now : Nat) (rs : List Range),
        handleDecoratorEvent st now (.changeTextDocument rs)
          = (st, [{ time := now, ranges := rs }]) := by
  refine ⟨?_, fun st now rs => rfl⟩
  cases events with
  | nil => exact absurd rfl h1
  | cons e1 rest =>
    obtain ⟨t1, rs1⟩ := e1
    unfold decoratorPasses
    simp only [List.map_cons, runDecoratorEvents]
    have hfire : fireDueTimer { changeVisibleRangesTimer := none } t1
        = ({ changeVisibleRangesTimer := none }, []) := rfl
    rw [hfire]
    have hhandle : handleDecoratorEvent { changeVisibleRangesTimer := none } t1
        (DecoratorEvent.changeVisibleRanges rs1)
        = ({ changeVisibleRangesTimer := some (t1 + 100, rs1) }, []) := rfl
    rw [hhandle]
    have hrest := runDecoratorEvents_burst rest t1 rs1 (by
      cases rest with
      | nil => trivial
      | cons e2 rest' =>
        obtain ⟨t2, rs2⟩ := e2
        simp only [burstWithinDebounce, Bool.and_eq_true, decide_eq_true_eq] at h2
        exact ⟨h2.1.1, h2.1.2⟩) (by
      cases rest with
      | nil => rfl
      | cons e2 rest' =>
        obtain ⟨t2, rs2⟩ := e2
        simp only [burstWithinDebounce, Bool.and_eq_true, decide_eq_true_eq] at h2
        exact h2.2)
    rw [hrest, List.getLastD_cons]
    rfl

/-- C7 witness: two visible-range events 50ms apart produce exactly one pass,
100ms after the second event, with the second event's ranges. -/
theorem c7_debounce_coalesces_witness :
    (burstTwo ≠ [] ∧ burstWithinDebounce burstTwo = true)
    ∧ (decoratorPasses (burstTwo.map fun e => (e.1, DecoratorEvent.changeVisibleRanges e.2))
        = [{ time := (burstTwo.getLastD (0, [])).1 + 100,
             ranges := (burstTwo.getLastD (0, [])).2 }]
      ∧ ∀ (st : DecoratorState) (now : Nat) (rs : List Range),
          handleDecoratorEvent st now (.changeTextDocument rs)
            = (st, [{ time := now, ranges := rs }])) :=
  ⟨⟨by decide, by decide⟩, c7_debounce_coalesces burstTwo (by decide) (by decide)⟩

/-- C8: the claim says `demangle` returns a result or `null` for every
possible outcome of the external tool invocation, including spawn failure
where `stdout` is `null`, and never throws.  The code violates this: both
demanglers immediately call `.stdout.trim()`, which on a `null` `stdout`
raises a `TypeError` that propagates out of `demangleSymbolsInRanges`.
Evaluation at the failing input: under a spawn behaviour whose spawns fail,
both `demangle` methods throw. -/
theorem c8_spawn_failure_throws :
    CppDemangler.demangle spawnFailure "c++filt" "_ZN3fooEv"
        = Except.error "TypeError: stdout is null"
    ∧ SwiftDemangler.demangle spawnFailure "swift-demangle" "_$s4main3fooyyF"
        = Except.error "TypeError: stdout is null" := ⟨rfl, rfl⟩

/-- C9: for every line of text, each registered pattern (`CppDemangler`'s and
`SwiftDemangler`'s) matches only non-empty substrings, so each `exec` step
strictly advances `lastIndex` (and stays within the text), and the repeated
non-overlapping matching loop terminates — at most `length + 1` iterations
reach the final failing `exec`. -/
theorem c9_exec_loop_terminates (text : String) (i : Nat) :
    (execAdvances cppMangledSymbolPattern text.toList i = true
      ∧ (execLoop cppMangledSymbolPattern text.toList (text.toList.length + 1) 0).isSome = true)
    ∧ (execAdvances swiftMangledSymbolPattern text.toList i = true
      ∧ (execLoop swiftMangledSymbolPattern text.toList (text.toList.length + 1) 0).isSome
          = true) := by
  have hc : cppMangledSymbolPattern.nonNullable = true := rfl
  have hs : swiftMangledSymbolPattern.nonNullable = true := rfl
  exact ⟨⟨execAdvances_of_nonNullable _ hc _ _,
          execLoop_isSome_of_nonNullable _ hc _ _ 0 (by omega)⟩,
         ⟨execAdvances_of_nonNullable _ hs _ _,
          execLoop_isSome_of_nonNullable _ hs _ _ 0 (by omega)⟩⟩

/-- C10: the cache is keyed by the raw candidate string alone: once any
demangler's successful outcome for a string is stored, a lookup of that
string through *any* demangler returns the stored outcome without invoking
that demangler, and a whole `demangleSymbolsInRanges` pass logs no external
invocation for that string. -/
theorem c10_cache_keyed_by_string (core : DemanglerCore) (S : String)
    (r : DemangleResult) (d : IDemangler) (doc : TextDocument) (ranges : List Range)
    (h : cacheGet core.demangleCache S = some (some r)) :
    core.lookupSymbolInCacheOrDemangle S d = (some r, core, [])
    ∧ ∀ e ∈ (core.demangleSymbolsInRanges doc ranges).2.2, e.2 ≠ S :=
  ⟨lookupSymbolInCacheOrDemangle_hit core S d r h,
    demangleAll_no_call_of_pos _ core S r h⟩

/-- C10 witness: a cached positive for `K`, looked up through a different
demangler than the one whose pattern found it, is returned from the cache and
the scan pass logs no invocation for `K`. -/
theorem c10_cache_keyed_by_string_witness :
    cacheGet corePosCached.demangleCache "K" = some (some okResult)
    ∧ (corePosCached.lookupSymbolInCacheOrDemangle "K" negDemangler
          = (some okResult, corePosCached, [])
      ∧ ∀ e ∈ (corePosCached.demangleSymbolsInRanges docK [rangeK]).2.2, e.2 ≠ "K") :=
  ⟨rfl, c10_cache_keyed_by_string corePosCached "K" okResult negDemangler docK [rangeK] rfl⟩
